import Mathlib

/-!
Verification development for the `threads` CLI persistence layer
(`src/threads/db.py` and the resource-type heuristic in `src/threads/cli.py`).

The SQLite-backed store is shallowly embedded: a database is a `DB` record
holding the rows of the three tables (`threads`, `resources`, `tags`) in rowid
order together with the AUTOINCREMENT counters, and every Python function of
`db.py` becomes a Lean function on `DB`.  Wall-clock timestamps (`time.time()`)
are passed explicitly as a `Timestamp` argument, so the clock is injectable as
the design demands.  SQL `ORDER BY` is modelled by `List.insertionSort` with the
corresponding key relation, `LIMIT n` by `List.take n`, and `WHERE` by
`List.filter`.  Schema management (`ensure_db_exists`, `_get_db_version`,
`_set_db_version`, `_run_migration_1`, `_run_migration_2`) is embedded
separately over a `Schema` record of table/column existence flags plus the
version row, with `Except` modelling uncaught sqlite errors.  Note that the
Python code never enables SQLite's `foreign_keys` pragma, so the declared
foreign keys on `resources.thread_id` and `tags.thread_id` are not enforced;
accordingly the embedding performs no existence check on inserts.
-/

namespace Threads

/-- Timestamps (`time.time()` floats in the source) modelled as abstract
clock ticks; only their linear order and equality matter to the claims. -/
abbrev Timestamp := Nat

/-- A row of the `threads` table. -/
structure Thread where
  id : Nat
  question : String
  created_at : Timestamp
  last_active : Timestamp
  is_archived : Bool
deriving DecidableEq

/-- A row of the `resources` table. -/
structure Resource where
  id : Nat
  thread_id : Nat
  rtype : String
  content : String
  added_at : Timestamp
deriving DecidableEq

/-- A row of the `tags` table. -/
structure TagRow where
  id : Nat
  thread_id : Nat
  name : String
  created_at : Timestamp
deriving DecidableEq

/-- The record-level state of the database: the rows of each table in rowid
order, plus the AUTOINCREMENT counters (SQLite hands out `max id + 1`,
starting from 1, which the counters track). -/
structure DB where
  threads : List Thread
  resources : List Resource
  tags : List TagRow
  nextThreadId : Nat
  nextResourceId : Nat
  nextTagId : Nat
deriving DecidableEq

/-- A freshly created (schema-initialised, empty) database. -/
def emptyDb : DB := ⟨[], [], [], 1, 1, 1⟩

/-- Python `str.strip()` on a string modelled as its character sequence:
drop whitespace from both ends. -/
def strip (cs : List Char) : List Char :=
  ((cs.dropWhile fun c => c.isWhitespace).reverse.dropWhile fun c => c.isWhitespace).reverse

/-- Python `str.lower()` on a string modelled as its character sequence. -/
def lower (cs : List Char) : List Char :=
  cs.map Char.toLower

/-- `guess_resource_type` from `cli.py`:
`'url' if content.strip().lower().startswith('http') else 'text'`.
The content string is modelled as its character sequence. -/
def guess_resource_type (content : List Char) : String :=
  if "http".toList.isPrefixOf (lower (strip content)) then "url" else "text"

/-- `create_thread`: inserts a thread row with `created_at = last_active = now`
and returns `cursor.lastrowid`.  No validation is performed on `question`. -/
def create_thread (question : String) (now : Timestamp) (db : DB) : Nat × DB :=
  let tid := db.nextThreadId
  (tid,
   { db with
       threads := db.threads ++ [⟨tid, question, now, now, false⟩],
       nextThreadId := tid + 1 })

/-- The live `SELECT COUNT(*) FROM resources r WHERE r.thread_id = t.id`
subquery of `list_threads`. -/
def resourceCount (db : DB) (tid : Nat) : Nat :=
  (db.resources.filter (fun r => r.thread_id == tid)).length

/-- The projection of one `list_threads` result row:
`(t.id, t.question, resource_count, t.last_active, t.is_archived)`. -/
def threadSummary (db : DB) (t : Thread) : Nat × String × Nat × Timestamp × Bool :=
  (t.id, t.question, resourceCount db t.id, t.last_active, t.is_archived)

/-- The `ORDER BY t.last_active DESC` sort relation on thread rows. -/
def byLastActiveDesc : Thread → Thread → Prop :=
  fun a b => b.last_active ≤ a.last_active

instance : DecidableRel byLastActiveDesc :=
  fun a b => inferInstanceAs (Decidable (b.last_active ≤ a.last_active))

instance : IsTotal Thread byLastActiveDesc :=
  ⟨fun a b => Nat.le_total b.last_active a.last_active⟩

instance : IsTrans Thread byLastActiveDesc :=
  ⟨fun _ _ _ hab hbc => Nat.le_trans hbc hab⟩

/-- `list_threads`: `WHERE t.is_archived = 0` unless `include_archived`, then
`ORDER BY t.last_active DESC`, projected to summary rows, `LIMIT limit`. -/
def list_threads (db : DB) (limit : Nat) (include_archived : Bool) :
    List (Nat × String × Nat × Timestamp × Bool) :=
  let rows := if include_archived then db.threads
              else db.threads.filter (fun t => !t.is_archived)
  ((List.insertionSort byLastActiveDesc rows).map (threadSummary db)).take limit

/-- `get_thread_by_id`: `SELECT ... FROM threads WHERE id = ?`, first row or none. -/
def get_thread_by_id (tid : Nat) (db : DB) : Option Thread :=
  db.threads.find? (fun t => t.id == tid)

/-- `get_most_recent_thread` as written in the source: `list_threads` with
`limit = 1`, `None` on an empty result, otherwise an extra `get_thread_by_id`
query on `threads[0][0]`. -/
def get_most_recent_thread (db : DB) (include_archived : Bool) : Option Thread :=
  let threads := list_threads db 1 include_archived
  match threads with
  | [] => none
  | row :: _ => get_thread_by_id row.1 db

/-- `attach_resource`: inserts a resource row and updates the parent thread's
`last_active`, both with the single timestamp taken at the start of the call;
both statements are committed together.  No existence check on `thread_id`. -/
def attach_resource (tid : Nat) (content : String) (rtype : String)
    (now : Timestamp) (db : DB) : DB :=
  { db with
      resources := db.resources ++ [⟨db.nextResourceId, tid, rtype, content, now⟩],
      nextResourceId := db.nextResourceId + 1,
      threads := db.threads.map
        (fun t => if t.id = tid then { t with last_active := now } else t) }

/-- The `ORDER BY added_at ASC` sort relation on resource rows. -/
def byAddedAtAsc : Resource → Resource → Prop :=
  fun a b => a.added_at ≤ b.added_at

instance : DecidableRel byAddedAtAsc :=
  fun a b => inferInstanceAs (Decidable (a.added_at ≤ b.added_at))

instance : IsTotal Resource byAddedAtAsc :=
  ⟨fun a b => Nat.le_total a.added_at b.added_at⟩

instance : IsTrans Resource byAddedAtAsc :=
  ⟨fun _ _ _ hab hbc => Nat.le_trans hab hbc⟩

/-- `get_resources_for_thread`: `WHERE thread_id = ? ORDER BY added_at ASC`,
projected to `(id, type, content, added_at)`. -/
def get_resources_for_thread (tid : Nat) (db : DB) :
    List (Nat × String × String × Timestamp) :=
  (List.insertionSort byAddedAtAsc (db.resources.filter (fun r => r.thread_id == tid))).map
    (fun r => (r.id, r.rtype, r.content, r.added_at))

/-- `update_thread_last_active`: `UPDATE threads SET last_active = ? WHERE id = ?`. -/
def update_thread_last_active (tid : Nat) (now : Timestamp) (db : DB) : DB :=
  { db with
      threads := db.threads.map
        (fun t => if t.id = tid then { t with last_active := now } else t) }

/-- `add_tag`: `INSERT INTO tags`; the `UNIQUE(thread_id, name)` constraint
firing raises `sqlite3.IntegrityError`, which is caught and ignored, so an
existing `(thread_id, name)` pair makes the call a no-op.  The declared
foreign key is not enforced (the pragma is never enabled), so no thread
existence check happens. -/
def add_tag (tid : Nat) (name : String) (now : Timestamp) (db : DB) : DB :=
  if db.tags.any (fun g => g.thread_id == tid && g.name == name) then db
  else
    { db with
        tags := db.tags ++ [⟨db.nextTagId, tid, name, now⟩],
        nextTagId := db.nextTagId + 1 }

/-- The `ORDER BY name ASC` sort relation on tag rows. -/
def byNameAsc : TagRow → TagRow → Prop :=
  fun a b => a.name ≤ b.name

instance : DecidableRel byNameAsc :=
  fun a b => inferInstanceAs (Decidable (a.name ≤ b.name))

instance : IsTotal TagRow byNameAsc :=
  ⟨fun a b => le_total a.name b.name⟩

instance : IsTrans TagRow byNameAsc :=
  ⟨fun _ _ _ hab hbc => le_trans hab hbc⟩

/-- `get_tags_for_thread`: `SELECT name FROM tags WHERE thread_id = ?
ORDER BY name ASC`. -/
def get_tags_for_thread (tid : Nat) (db : DB) : List String :=
  (List.insertionSort byNameAsc (db.tags.filter (fun g => g.thread_id == tid))).map
    (fun g => g.name)

/-- `archive_thread`: `UPDATE threads SET is_archived = 1 WHERE id = ?`;
returns `cursor.rowcount > 0`, i.e. whether any row matched the `WHERE`
(SQLite counts a matched row even when the stored value is unchanged). -/
def archive_thread (tid : Nat) (db : DB) : Bool × DB :=
  (db.threads.any (fun t => t.id == tid),
   { db with
       threads := db.threads.map
         (fun t => if t.id = tid then { t with is_archived := true } else t) })

/-- `unarchive_thread`: `UPDATE threads SET is_archived = 0 WHERE id = ?`;
returns `cursor.rowcount > 0`. -/
def unarchive_thread (tid : Nat) (db : DB) : Bool × DB :=
  (db.threads.any (fun t => t.id == tid),
   { db with
       threads := db.threads.map
         (fun t => if t.id = tid then { t with is_archived := false } else t) })

/-- Number of `tags` rows with the given `(thread_id, name)` pair; the
`UNIQUE(thread_id, name)` table constraint keeps this at most 1 in any
database the code can produce. -/
def tagCount (db : DB) (tid : Nat) (name : String) : Nat :=
  (db.tags.filter (fun g => g.thread_id == tid && g.name == name)).length

/-- Creating a sequence of threads one after another (each call with its own
question and clock reading), collecting the returned ids. -/
def create_many (qs : List (String × Timestamp)) (db : DB) : List Nat × DB :=
  match qs with
  | [] => ([], db)
  | (q, now) :: rest =>
    let r := create_thread q now db
    let r2 := create_many rest r.2
    (r.1 :: r2.1, r2.2)

/-- The spec's own description of `getMostRecentThread` (§4.2), written from
its words for the refinement comparison: take `listThreads(limit = 1,
includeArchived)`, return not-found when that list is empty, and otherwise
perform a full lookup of the single returned ID. -/
def get_most_recent_thread_per_spec (db : DB) (include_archived : Bool) :
    Option Thread :=
  match (list_threads db 1 include_archived).head? with
  | none => none
  | some row => get_thread_by_id row.1 db

/-! ### Schema management and migrations -/

/-- The schema-level state of the database file: which tables and columns
exist, and the single row of `schema_version` (if any). -/
structure Schema where
  hasSchemaVersionTable : Bool
  versionRow : Option Nat
  hasThreadsTable : Bool
  hasResourcesTable : Bool
  hasTagsTable : Bool
  threadsHaveArchivedColumn : Bool
deriving DecidableEq

/-- The schema state of a database file that does not exist yet. -/
def freshSchema : Schema := ⟨false, none, false, false, false, false⟩

/-- `_get_db_version`: `SELECT version FROM schema_version`; a missing table
raises `sqlite3.OperationalError` which is caught and turned into 0, but a
present-yet-empty table would make `fetchone()[0]` raise an uncaught error. -/
def get_db_version (s : Schema) : Except String Nat :=
  if s.hasSchemaVersionTable then
    match s.versionRow with
    | some v => .ok v
    | none => .error "fetchone returned no row"
  else .ok 0

/-- `_set_db_version`: `INSERT OR REPLACE INTO schema_version (id, version)
VALUES (1, ?)`; fails if the table does not exist. -/
def set_db_version (s : Schema) (v : Nat) : Except String Schema :=
  if s.hasSchemaVersionTable then .ok { s with versionRow := some v }
  else .error "no such table: schema_version"

/-- `_run_migration_1`: `CREATE TABLE IF NOT EXISTS schema_version`, then
`CREATE TABLE IF NOT EXISTS tags`, then record version 1. -/
def run_migration_1 (s : Schema) : Except String Schema :=
  set_db_version { s with hasSchemaVersionTable := true, hasTagsTable := true } 1

/-- `_run_migration_2`: `ALTER TABLE threads ADD COLUMN is_archived ...`
(which fails if the column already exists), then record version 2. -/
def run_migration_2 (s : Schema) : Except String Schema :=
  if s.threadsHaveArchivedColumn then .error "duplicate column name: is_archived"
  else set_db_version { s with threadsHaveArchivedColumn := true } 2

/-- `ensure_db_exists`: create the base `threads` and `resources` tables with
`CREATE TABLE IF NOT EXISTS`, read the schema version once, then run each
still-missing migration against that originally read version; any uncaught
sqlite error propagates immediately. -/
def ensure_db_exists (s : Schema) : Except String Schema :=
  let s := { s with hasThreadsTable := true, hasResourcesTable := true }
  match get_db_version s with
  | .error e => .error e
  | .ok version =>
    match (if version < 1 then run_migration_1 s else .ok s) with
    | .error e => .error e
    | .ok s =>
      match (if version < 2 then run_migration_2 s else .ok s) with
      | .error e => .error e
      | .ok s => .ok s

/-! ### Helper lemmas -/

/-- In a list sorted ascending by `key`, an element strictly greater (in key)
than every other element is the last one. -/
theorem getLast_sorted_max {α : Type} (key : α → Nat) {L : List α} {a : α}
    (hs : L.Sorted (fun x y => key x ≤ key y)) (ha : a ∈ L)
    (hmax : ∀ b ∈ L, b ≠ a → key b < key a) : L.getLast? = some a := by
  induction L with
  | nil => cases ha
  | cons x xs ih =>
    cases xs with
    | nil =>
      rcases List.mem_singleton.mp ha with rfl
      rfl
    | cons y ys =>
      rw [List.getLast?_cons_cons]
      by_cases hmem : a ∈ y :: ys
      · exact ih hs.of_cons hmem (fun b hb hne => hmax b (List.mem_cons_of_mem _ hb) hne)
      · rcases List.mem_cons.mp ha with rfl | hconsmem
        · exfalso
          have hy_ne : y ≠ a := fun heq => hmem (List.mem_cons.mpr (Or.inl heq.symm))
          have hlt : key y < key a :=
            hmax y (List.mem_cons_of_mem _ (List.mem_cons_self _ _)) hy_ne
          have hle : key a ≤ key y :=
            List.rel_of_sorted_cons hs y (List.mem_cons_self _ _)
          omega
        · exact absurd hconsmem hmem

/-- `getLast?` commutes with `map`. -/
theorem getLast_map_comm {α β : Type} (f : α → β) :
    ∀ l : List α, (l.map f).getLast? = l.getLast?.map f := by
  intro l
  induction l with
  | nil => rfl
  | cons x xs ih =>
    cases xs with
    | nil => rfl
    | cons y ys => simpa [List.getLast?_cons_cons] using ih

/-- Looking up an id in a thread list whose matching rows just had their
`last_active` set finds a row carrying the new timestamp, provided a row
with that id exists. -/
theorem find_update_last_active (tid : Nat) (now : Timestamp) :
    ∀ l : List Thread, (∃ t ∈ l, t.id = tid) →
      ∃ t, (l.map (fun t => if t.id = tid then { t with last_active := now } else t)).find?
            (fun t => t.id == tid) = some t ∧ t.last_active = now := by
  intro l hex
  induction l with
  | nil =>
    obtain ⟨t, ht, _⟩ := hex
    cases ht
  | cons x xs ih =>
    by_cases hx : x.id = tid
    · rw [List.map_cons, List.find?_cons_of_pos _ (by simp [hx])]
      exact ⟨_, rfl, by simp [hx]⟩
    · obtain ⟨t, ht, htid⟩ := hex
      rcases List.mem_cons.mp ht with rfl | hmem
      · exact absurd htid hx
      · obtain ⟨t', ht', hla⟩ := ih ⟨t, hmem, htid⟩
        refine ⟨t', ?_, hla⟩
        rw [List.map_cons, List.find?_cons_of_neg _ (by simp [hx]), ht']

/-- Every row of a `list_threads` result is the summary of some thread row
drawn from the archive-filtered base set. -/
theorem mem_list_threads {db : DB} {limit : Nat} {inc : Bool} {row}
    (h : row ∈ list_threads db limit inc) :
    ∃ t, t ∈ (if inc then db.threads
              else db.threads.filter (fun t => !t.is_archived)) ∧
         row = threadSummary db t := by
  simp only [list_threads] at h
  have h1 := List.mem_of_mem_take h
  obtain ⟨t, ht, hrow⟩ := List.mem_map.mp h1
  exact ⟨t, (List.mem_insertionSort byLastActiveDesc).mp ht, hrow.symm⟩

/-! ### Claim theorems -/

/-- C1: for an existing thread and a timestamp strictly later than every
resource already attached to it, `attach_resource` inserts the resource and
bumps the thread's `last_active` with one and the same timestamp: the thread
looked up afterwards carries `last_active = now`, and the new resource —
with `added_at = now` — is the last element of the ascending
`get_resources_for_thread` listing. -/
theorem attach_resource_spec (db : DB) (tid : Nat) (c ty : String) (now : Timestamp)
    (h_ex : ∃ t ∈ db.threads, t.id = tid)
    (h_inc : ∀ r ∈ db.resources, r.thread_id = tid → r.added_at < now) :
    (get_thread_by_id tid (attach_resource tid c ty now db)).map Thread.last_active
      = some now ∧
    (get_resources_for_thread tid (attach_resource tid c ty now db)).getLast?
      = some (db.nextResourceId, ty, c, now) := by
  constructor
  · obtain ⟨t, hfind, hla⟩ := find_update_last_active tid now db.threads h_ex
    simp only [get_thread_by_id, attach_resource]
    rw [hfind]
    simp [hla]
  · have hnewmem : (⟨db.nextResourceId, tid, ty, c, now⟩ : Resource)
        ∈ (attach_resource tid c ty now db).resources.filter
            (fun r => r.thread_id == tid) := by
      simp only [attach_resource]
      exact List.mem_filter.mpr
        ⟨List.mem_append_right _ (List.mem_singleton_self _), by simp⟩
    simp only [get_resources_for_thread]
    rw [getLast_map_comm]
    have hlast : (List.insertionSort byAddedAtAsc
        ((attach_resource tid c ty now db).resources.filter
          (fun r => r.thread_id == tid))).getLast?
        = some ⟨db.nextResourceId, tid, ty, c, now⟩ := by
      apply getLast_sorted_max Resource.added_at
      · exact List.sorted_insertionSort byAddedAtAsc _
      · exact (List.mem_insertionSort byAddedAtAsc).mpr hnewmem
      · intro b hb hne
        have hb' := (List.mem_insertionSort byAddedAtAsc).mp hb
        have hbmem := List.mem_filter.mp hb'
        rcases List.mem_append.mp hbmem.1 with hbf | hbn
        · exact h_inc b hbf (by simpa using hbmem.2)
        · exact absurd (List.mem_singleton.mp hbn) hne
    rw [hlast]
    rfl

/-- C8: `guess_resource_type` is a pure function that, after stripping
whitespace and lowercasing, returns `"url"` exactly when the result starts
with `"http"` and `"text"` otherwise; in particular it classifies
`"https://x.com"`, `"HTTP://X"` and `"  http://x "` as urls and
`"notes here"` as text. -/
theorem guess_resource_type_spec :
    (∀ content : List Char,
       (guess_resource_type content = "url" ↔
         "http".toList.isPrefixOf (lower (strip content)) = true) ∧
       (guess_resource_type content = "text" ↔
         ¬ "http".toList.isPrefixOf (lower (strip content)) = true)) ∧
    guess_resource_type "https://x.com".toList = "url" ∧
    guess_resource_type "HTTP://X".toList = "url" ∧
    guess_resource_type "  http://x ".toList = "url" ∧
    guess_resource_type "notes here".toList = "text" := by
  refine ⟨fun content => ?_, by decide, by decide, by decide, by decide⟩
  by_cases h : "http".toList.isPrefixOf (lower (strip content)) = true <;>
    simp [guess_resource_type, h]

/-- C5 counterexample: the empty question is empty after stripping, yet
`create_thread` completes with no validation failure and inserts a thread
row (so the claimed `ValidationError` plus no-row-created behavior is
absent from the code; the spec itself flags the original behavior as
accepting empty strings). -/
theorem create_thread_empty_accepted :
    strip "".toList = [] ∧
    (create_thread "" 0 emptyDb).2.threads = [⟨1, "", 0, 0, false⟩] ∧
    (create_thread "" 0 emptyDb).1 = 1 := by
  decide

/-- C5 amended: `create_thread` performs no validation of the question: even
when the question is empty after trimming, it inserts exactly one thread row
carrying that question and returns the fresh id. -/
theorem create_thread_no_validation (q : String) (now : Timestamp) (db : DB)
    (h : strip q.toList = []) :
    (create_thread q now db).2.threads
      = db.threads ++ [⟨db.nextThreadId, q, now, now, false⟩] ∧
    (create_thread q now db).1 = db.nextThreadId :=
  ⟨rfl, rfl⟩

/-- C5 witness: the amended theorem applied to the empty question on the
empty store. -/
theorem create_thread_no_validation_witness :
    (create_thread "" 0 emptyDb).2.threads
      = emptyDb.threads ++ [⟨emptyDb.nextThreadId, "", 0, 0, false⟩] ∧
    (create_thread "" 0 emptyDb).1 = emptyDb.nextThreadId :=
  create_thread_no_validation "" 0 emptyDb (by decide)

/-- C6: `archive_thread` returns `true` exactly when a thread row with the
given id exists (`false` means not found), re-archiving an already archived
thread still returns the same result, and `unarchive_thread` behaves
symmetrically. -/
theorem archive_unarchive_spec (db : DB) (tid : Nat) :
    ((archive_thread tid db).1 = true ↔ ∃ t ∈ db.threads, t.id = tid) ∧
    ((unarchive_thread tid db).1 = true ↔ ∃ t ∈ db.threads, t.id = tid) ∧
    (archive_thread tid (archive_thread tid db).2).1 = (archive_thread tid db).1 ∧
    (unarchive_thread tid (unarchive_thread tid db).2).1 = (unarchive_thread tid db).1 := by
  have hpred : ∀ s : Bool,
      (fun t : Thread => t.id == tid) ∘
        (fun t : Thread => if t.id = tid then { t with is_archived := s } else t)
      = fun t : Thread => t.id == tid := by
    intro s
    funext t
    by_cases h : t.id = tid <;> simp [h]
  refine ⟨?_, ?_, ?_, ?_⟩
  · simp [archive_thread, List.any_eq_true]
  · simp [unarchive_thread, List.any_eq_true]
  · simp only [archive_thread]
    rw [List.any_map, hpred true]
  · simp only [unarchive_thread]
    rw [List.any_map, hpred false]

/-- C7: the source's `get_most_recent_thread` coincides with the spec's
description — `listThreads(limit = 1, includeArchived)`, not-found on an
empty result, otherwise a full `getThreadById` lookup of the one returned
ID — for every store state and archive flag. -/
theorem get_most_recent_thread_refines (db : DB) (inc : Bool) :
    get_most_recent_thread db inc = get_most_recent_thread_per_spec db inc := by
  unfold get_most_recent_thread get_most_recent_thread_per_spec
  cases list_threads db 1 inc <;> rfl

/-- The ids handed out by a run of thread creations are consecutive starting
at the store's current AUTOINCREMENT counter. -/
theorem create_many_ids (qs : List (String × Timestamp)) (db : DB) :
    (create_many qs db).1 = List.range' db.nextThreadId qs.length := by
  induction qs generalizing db with
  | nil => rfl
  | cons hd rest ih =>
    obtain ⟨q, now⟩ := hd
    simp [create_many, create_thread, List.range', ih]

/-- C9: creating N threads in sequence from the empty store yields the ids
1, 2, ..., N — strictly increasing, starting at 1, and every id positive
(hence unique among threads). -/
theorem create_thread_ids_monotonic (qs : List (String × Timestamp)) :
    (create_many qs emptyDb).1 = List.range' 1 qs.length ∧
    (create_many qs emptyDb).1.Pairwise (· < ·) ∧
    (∀ i ∈ (create_many qs emptyDb).1, 0 < i) := by
  have h : (create_many qs emptyDb).1 = List.range' 1 qs.length :=
    create_many_ids qs emptyDb
  refine ⟨h, ?_, ?_⟩
  · rw [h]
    exact List.pairwise_lt_range' 1 qs.length
  · intro i hi
    rw [h] at hi
    have := List.mem_range'_1.mp hi
    omega

/-- C10: `add_tag` on a thread id that references no existing thread still
completes and records the tag — `get_tags_for_thread` then contains the
name while `get_thread_by_id` still finds nothing, i.e. an orphaned tag row
is created because the declared foreign key is never enforced and `add_tag`
performs no existence check. -/
theorem add_tag_orphan (db : DB) (tid : Nat) (x : String) (now : Timestamp)
    (h : ∀ t ∈ db.threads, t.id ≠ tid) :
    x ∈ get_tags_for_thread tid (add_tag tid x now db) ∧
    get_thread_by_id tid (add_tag tid x now db) = none := by
  constructor
  · have hex : ∃ g ∈ (add_tag tid x now db).tags,
        (g.thread_id == tid && g.name == x) = true := by
      unfold add_tag
      by_cases hany : db.tags.any (fun g => g.thread_id == tid && g.name == x)
      · simp only [if_pos hany]
        exact List.any_eq_true.mp hany
      · simp only [if_neg hany]
        exact ⟨⟨db.nextTagId, tid, x, now⟩,
               List.mem_append_right _ (List.mem_singleton_self _), by simp⟩
    obtain ⟨g, hg, hpg⟩ := hex
    rw [Bool.and_eq_true, beq_iff_eq, beq_iff_eq] at hpg
    unfold get_tags_for_thread
    rw [List.mem_map]
    refine ⟨g, ?_, hpg.2⟩
    rw [List.mem_insertionSort]
    exact List.mem_filter.mpr ⟨hg, by simp [hpg.1]⟩
  · unfold get_thread_by_id add_tag
    have : (if db.tags.any (fun g => g.thread_id == tid && g.name == x) then db
            else { db with
                     tags := db.tags ++ [⟨db.nextTagId, tid, x, now⟩],
                     nextTagId := db.nextTagId + 1 }).threads = db.threads := by
      split <;> rfl
    rw [this, List.find?_eq_none]
    intro t ht
    simpa using h t ht

/-- C10 witness: tagging the nonexistent thread 7 in the empty store. -/
theorem add_tag_orphan_witness :
    "x" ∈ get_tags_for_thread 7 (add_tag 7 "x" 0 emptyDb) ∧
    get_thread_by_id 7 (add_tag 7 "x" 0 emptyDb) = none :=
  add_tag_orphan emptyDb 7 "x" 0 (by decide)

/-- C4: `add_tag` is idempotent — starting from any store satisfying the
`UNIQUE(thread_id, name)` invariant, adding the same tag twice leaves
exactly one tag row with that name for that thread, and the second call is
a silent no-op on the whole store (the constraint violation is swallowed,
never surfaced). -/
theorem add_tag_idempotent (db : DB) (tid : Nat) (x : String)
    (now₁ now₂ : Timestamp) (hinv : tagCount db tid x ≤ 1) :
    tagCount (add_tag tid x now₂ (add_tag tid x now₁ db)) tid x = 1 ∧
    add_tag tid x now₂ (add_tag tid x now₁ db) = add_tag tid x now₁ db := by
  have hnoop : ∀ (now : Timestamp) (d : DB),
      (d.tags.any (fun g => g.thread_id == tid && g.name == x)) = true →
      add_tag tid x now d = d := by
    intro now d hd
    unfold add_tag
    rw [if_pos hd]
  by_cases hany : db.tags.any (fun g => g.thread_id == tid && g.name == x)
  · have hcount : 1 ≤ tagCount db tid x := by
      obtain ⟨g, hg, hpg⟩ := List.any_eq_true.mp hany
      have hmem : g ∈ db.tags.filter (fun g => g.thread_id == tid && g.name == x) :=
        List.mem_filter.mpr ⟨hg, hpg⟩
      have := List.length_pos.mpr (List.ne_nil_of_mem hmem)
      unfold tagCount
      omega
    rw [hnoop now₁ db hany, hnoop now₂ db hany]
    exact ⟨by omega, rfl⟩
  · have hnil : db.tags.filter (fun g => g.thread_id == tid && g.name == x) = [] := by
      rw [List.filter_eq_nil_iff]
      intro g hg hpg
      exact (List.any_eq_true.not.mp hany) ⟨g, hg, hpg⟩
    have hfirst : add_tag tid x now₁ db
        = { db with
              tags := db.tags ++ [⟨db.nextTagId, tid, x, now₁⟩],
              nextTagId := db.nextTagId + 1 } := by
      unfold add_tag
      rw [if_neg hany]
    have hany' : ((add_tag tid x now₁ db).tags.any
        (fun g => g.thread_id == tid && g.name == x)) = true := by
      rw [hfirst, List.any_eq_true]
      exact ⟨⟨db.nextTagId, tid, x, now₁⟩,
             List.mem_append_right _ (List.mem_singleton_self _), by simp⟩
    have hsecond := hnoop now₂ _ hany'
    refine ⟨?_, hsecond⟩
    rw [hsecond, hfirst]
    unfold tagCount
    simp [List.filter_append, hnil]

/-- C4 witness: tagging thread 5 twice in the empty store. -/
theorem add_tag_idempotent_witness :
    tagCount (add_tag 5 "x" 2 (add_tag 5 "x" 1 emptyDb)) 5 "x" = 1 ∧
    add_tag 5 "x" 2 (add_tag 5 "x" 1 emptyDb) = add_tag 5 "x" 1 emptyDb :=
  add_tag_idempotent emptyDb 5 "x" 1 2 (by decide)

/-- C2: running `ensure_db_exists` twice in a row is safe — whenever a first
run succeeds, the second run succeeds and returns the schema state
completely unchanged (version marker included): the recorded version is
detected and no migration is applied. -/
theorem ensure_db_exists_idempotent (s₀ s₁ : Schema)
    (h : ensure_db_exists s₀ = Except.ok s₁) :
    ensure_db_exists s₁ = Except.ok s₁ := by
  obtain ⟨svt, vr, ht, hr, htg, hac⟩ := s₀
  cases svt with
  | false =>
    cases hac with
    | false =>
      have h' : Except.ok (⟨true, some 2, true, true, true, true⟩ : Schema)
          = Except.ok s₁ := h
      injection h' with h''
      subst h''
      rfl
    | true =>
      have h' : (Except.error "duplicate column name: is_archived" : Except String Schema)
          = Except.ok s₁ := h
      exact Except.noConfusion h'
  | true =>
    cases vr with
    | none =>
      have h' : (Except.error "fetchone returned no row" : Except String Schema)
          = Except.ok s₁ := h
      exact Except.noConfusion h'
    | some v =>
      rcases Nat.lt_or_ge v 1 with hv | hv
      · have hv0 : v = 0 := by omega
        subst hv0
        cases hac with
        | false =>
          have h' : Except.ok (⟨true, some 2, true, true, true, true⟩ : Schema)
              = Except.ok s₁ := h
          injection h' with h''
          subst h''
          rfl
        | true =>
          have h' : (Except.error "duplicate column name: is_archived" : Except String Schema)
              = Except.ok s₁ := h
          exact Except.noConfusion h'
      · rcases Nat.lt_or_ge v 2 with hv2 | hv2
        · have hv1 : v = 1 := by omega
          subst hv1
          cases hac with
          | false =>
            have h' : Except.ok (⟨true, some 2, true, true, htg, true⟩ : Schema)
                = Except.ok s₁ := h
            injection h' with h''
            subst h''
            rfl
          | true =>
            have h' : (Except.error "duplicate column name: is_archived" : Except String Schema)
                = Except.ok s₁ := h
            exact Except.noConfusion h'
        · have h1 : ¬ v < 1 := by omega
          have h2 : ¬ v < 2 := by omega
          have hcalc : ∀ ht' hr' : Bool,
              ensure_db_exists ⟨true, some v, ht', hr', htg, hac⟩
                = Except.ok ⟨true, some v, true, true, htg, hac⟩ := by
            intro ht' hr'
            simp only [ensure_db_exists, get_db_version, if_true]
            rw [if_neg h1]
            simp [h2]
          rw [hcalc ht hr] at h
          injection h with h''
          subst h''
          exact hcalc true true

/-- C2 witness: initialising a fresh database file and running
`ensure_db_exists` again on the resulting fully migrated schema. -/
theorem ensure_db_exists_idempotent_witness :
    ensure_db_exists ⟨true, some 2, true, true, true, true⟩
      = Except.ok ⟨true, some 2, true, true, true, true⟩ :=
  ensure_db_exists_idempotent freshSchema ⟨true, some 2, true, true, true, true⟩ rfl

/-- C1 witness: a store with the single thread 1 (created at time 3, no
resources) receiving a resource at time 9. -/
theorem attach_resource_spec_witness :
    (get_thread_by_id 1 (attach_resource 1 "c" "url" 9
        ((create_thread "q" 3 emptyDb).2))).map Thread.last_active = some 9 ∧
    (get_resources_for_thread 1 (attach_resource 1 "c" "url" 9
        ((create_thread "q" 3 emptyDb).2))).getLast? = some (1, "url", "c", 9) :=
  attach_resource_spec ((create_thread "q" 3 emptyDb).2) 1 "c" "url" 9
    (by decide) (by decide)

/-- C3: `list_threads` filters out archived threads unless `include_archived`
is set, orders the result by `last_active` descending, reports each row's
live resource count for that row's thread id, returns at most `limit` rows,
and with `include_archived = true` and a limit at least the thread count it
returns a summary of every thread. -/
theorem list_threads_spec (db : DB) (limit : Nat) (inc : Bool) :
    (∀ row ∈ list_threads db limit false, row.2.2.2.2 = false) ∧
    ((list_threads db limit inc).map (fun row => row.2.2.2.1)).Sorted (· ≥ ·) ∧
    (∀ row ∈ list_threads db limit inc, row.2.2.1 = resourceCount db row.1) ∧
    (list_threads db limit inc).length ≤ limit ∧
    (db.threads.length ≤ limit →
      (list_threads db limit true).Perm (db.threads.map (threadSummary db))) := by
  refine ⟨?_, ?_, ?_, ?_, ?_⟩
  · intro row hrow
    obtain ⟨t, htmem, hrow⟩ := mem_list_threads hrow
    rw [if_neg (by simp)] at htmem
    have harch := (List.mem_filter.mp htmem).2
    rw [Bool.not_eq_eq_eq_not, Bool.not_true] at harch
    rw [hrow]
    exact harch
  · simp only [list_threads]
    rw [← List.map_take, List.map_map]
    refine List.Pairwise.sublist (List.Sublist.map _ (List.take_sublist _ _)) ?_
    exact (List.sorted_insertionSort byLastActiveDesc _).map _ (fun a b hab => hab)
  · intro row hrow
    obtain ⟨t, _, hrow⟩ := mem_list_threads hrow
    rw [hrow]
    rfl
  · simp only [list_threads]
    exact List.length_take_le _ _
  · intro hlen
    simp only [list_threads, if_pos rfl]
    rw [List.take_of_length_le (by simpa using hlen)]
    exact (List.perm_insertionSort byLastActiveDesc db.threads).map (threadSummary db)

end Threads
